import Mathlib

/-!
Shallow embedding of the builder daemon (job lifecycle, registry and log
distribution) together with proofs about the embedded operations.

Sources embedded here:
- src/src/job.js: Job (name and argument validation, log buffering) and
  JobManager (get, getById, isRunning, create, replace, remove).
- src/unnamed/part_000: configuration constants, the HTTP start handler and
  streamJobLogs (the log distributor), and the JobError kinds.

Conventions: JS strings are Lean String, buffers are List Nat (one Nat per
byte), the JS Map is an association list in insertion order, and undefined
values arising from property accesses are modelled with Option.
-/

namespace Builder

/-! Configuration constants (src/unnamed/part_000, config section). -/

def COMMAND_MAX_BUFFER : Nat := 16384

def COMMAND_MAX_JOBS : Nat := 30

def COMMAND_CLEANUP_TIMEOUT : Nat := 30

/-! Identifier validation (src/src/job.js lines 116 and 126).

The JS regexes use the word class, which is the ASCII letters, the digits
and the underscore. -/

/-- Word class of the JS regexes: ASCII letters, digits and underscore. -/
def isWordChar (c : Char) : Bool := c.isAlphanum || c == '_'

/-- Characters allowed after the first character of a segment: word
characters and the hyphen. -/
def isSegChar (c : Char) : Bool := isWordChar c || c == '-'

/-- States of the deterministic matcher compiled from the source regex
for names. State start expects the first character of a segment, state
second expects the mandatory second character, state rest accepts and can
extend the segment or begin a new one after a plus sign. -/
inductive MState where
  | start
  | second
  | rest

/-- Deterministic matcher for the name regex of src/src/job.js line 116:
a word character, then one or more word characters or hyphens, then any
number of repetitions of a plus sign followed by the same segment shape.
The character classes of the segment body and the plus separator are
disjoint, so this direct automaton is exactly the regex. -/
def matchFrom : MState → List Char → Bool
  | MState.start, [] => false
  | MState.start, c :: cs => isWordChar c && matchFrom MState.second cs
  | MState.second, [] => false
  | MState.second, c :: cs => isSegChar c && matchFrom MState.rest cs
  | MState.rest, [] => true
  | MState.rest, c :: cs =>
    if isSegChar c then matchFrom MState.rest cs
    else c == '+' && matchFrom MState.start cs

/-- Job.isValidName (src/src/job.js line 116). -/
def isValidName (s : String) : Bool := matchFrom MState.start s.data

/-- Validation of one argument (the regex of src/src/job.js line 126):
a word character followed by one or more word characters or hyphens. -/
def isValidArgument (s : String) : Bool :=
  match s.data with
  | [] => false
  | c :: cs => isWordChar c && !cs.isEmpty && cs.all isSegChar

/-- Job.isValidArguments (src/src/job.js line 126): every element passes. -/
def isValidArguments (args : List String) : Bool := args.all isValidArgument

/-! Segment-level characterisation of the name grammar, used to state the
corrected version of the specification sentence about isValidName. -/

/-- Split a character list at every plus sign, mirroring the JS call
name.split with a plus separator (an empty input yields one empty
segment, as in JS). -/
def splitPlus : List Char → List (List Char)
  | [] => [[]]
  | c :: cs =>
    if c == '+' then [] :: splitPlus cs
    else
      match splitPlus cs with
      | s :: ss => (c :: s) :: ss
      | [] => [[c]]

/-- A valid segment: a word character followed by at least one more word
character or hyphen (so at least two characters long). -/
def validSeg : List Char → Bool
  | [] => false
  | c :: cs => isWordChar c && !cs.isEmpty && cs.all isSegChar

/-- Name validity phrased on segments: splitting at plus signs yields
segments that are all valid. This is the spec-side characterisation that
the matcher is compared against. -/
def isValidNameSegments (s : String) : Bool := (splitPlus s.data).all validSeg

theorem splitPlus_ne_nil (cs : List Char) : splitPlus cs ≠ [] := by
  cases cs with
  | nil => simp [splitPlus]
  | cons c cs =>
    simp only [splitPlus]
    by_cases h : c == '+'
    · simp [h]
    · simp only [h, if_false]
      cases splitPlus cs <;> simp

/-- Spec value corresponding to matcher state second on the remaining
input: the current segment still needs its mandatory second character. -/
def secondSpec (cs : List Char) : Bool :=
  match splitPlus cs with
  | s :: ss => !s.isEmpty && s.all isSegChar && ss.all validSeg
  | [] => false

/-- Spec value corresponding to matcher state rest on the remaining
input: the current segment is already acceptable. -/
def restSpec (cs : List Char) : Bool :=
  match splitPlus cs with
  | s :: ss => s.all isSegChar && ss.all validSeg
  | [] => false

theorem matchFrom_eq_spec (cs : List Char) :
    (matchFrom MState.start cs = (splitPlus cs).all validSeg)
    ∧ (matchFrom MState.second cs = secondSpec cs)
    ∧ (matchFrom MState.rest cs = restSpec cs) := by
  induction cs with
  | nil =>
    refine ⟨by simp [matchFrom, splitPlus, validSeg], ?_, ?_⟩
    · simp [matchFrom, secondSpec, splitPlus]
    · simp [matchFrom, restSpec, splitPlus]
  | cons c cs ih =>
    obtain ⟨ih1, ih2, ih3⟩ := ih
    obtain ⟨s, ss, hsplit⟩ : ∃ s ss, splitPlus cs = s :: ss := by
      cases h : splitPlus cs with
      | nil => exact absurd h (splitPlus_ne_nil cs)
      | cons s ss => exact ⟨s, ss, rfl⟩
    by_cases hp : c = '+'
    · subst hp
      have hw : isWordChar '+' = false := by decide
      have hs : isSegChar '+' = false := by decide
      refine ⟨?_, ?_, ?_⟩
      · simp [matchFrom, splitPlus, validSeg, hw]
      · simp [matchFrom, secondSpec, splitPlus, hs]
      · simp [matchFrom, restSpec, splitPlus, hs, ih1]
    · have hbe : (c == '+') = false := by
        simp [hp]
      refine ⟨?_, ?_, ?_⟩
      · simp only [matchFrom, ih2, secondSpec, hsplit]
        simp [splitPlus, hbe, hsplit, validSeg, Bool.and_assoc]
      · simp only [matchFrom, ih3, restSpec, hsplit]
        simp only [secondSpec, splitPlus, hbe, if_false, hsplit, List.all_cons]
        simp [Bool.and_assoc]
      · simp only [matchFrom, restSpec, splitPlus, hbe, if_false, hsplit, List.all_cons]
        by_cases hsc : isSegChar c
        · simp [hsc, ih3, restSpec, hsplit]
        · simp [hsc, hbe]

/-- C5 counterexample: the claim asserts that isValidName rejects the
string abc underscore def because underscores are not permitted; the
source regex uses the word class, which contains the underscore, so the
code accepts it. -/
theorem c5_counterexample : isValidName "abc_def" = true := by decide

/-- C5 (amended): isValidName agrees with the segment characterisation in
which word characters include the underscore and every segment has at
least two characters (a word character followed by one or more word
characters or hyphens), segments being joined by single plus separators.
In particular abc_def is accepted, single-character segments are
rejected, and the remaining examples of the claim keep their stated
values. -/
theorem c5_amended :
    (∀ s : String, isValidName s = isValidNameSegments s)
    ∧ isValidName "live+da-cc" = true
    ∧ isValidName "abc-def" = true
    ∧ isValidName "abc_def" = true
    ∧ isValidName "" = false
    ∧ isValidName "+abc" = false
    ∧ isValidName "-abc" = false
    ∧ isValidName "a" = false
    ∧ isValidName "a+bc" = false
    ∧ isValidName "ab%cd" = false := by
  refine ⟨fun s => (matchFrom_eq_spec s.data).1, ?_⟩
  decide

/-- C5 witness: the amended equivalence applied at a concrete name. -/
theorem c5_witness : isValidName "live+da-cc" = isValidNameSegments "live+da-cc" :=
  c5_amended.1 "live+da-cc"

/-! Error kinds (src/unnamed/part_000, errors module). JobError carries one
of exactly these five message strings; there is no spawn-failure kind. -/

/-- The JobError kinds defined by the source: ERROR_INVALID_NAME,
ERROR_INVALID_ARGS, ERROR_ALREADY_RUNNING, ERROR_JOB_NOT_FOUND and
ERROR_MAX_JOBS. -/
inductive JobErr where
  | invalidName
  | invalidArgs
  | alreadyRunning
  | jobNotFound
  | maxJobs
deriving DecidableEq

/-- An error escaping JobManager.create: either a JobError or a non
JobError exception (for example an exception thrown by the spawn call
itself, which the source does not wrap). -/
inductive CreateErr where
  | jobError (e : JobErr)
  | native
deriving DecidableEq

/-! Job and JobManager (src/src/job.js). -/

/-- Registry view of one Job: its id, name, whether getState currently
returns RUNNING, and the pending cleanup timer handle stored on the job
by the close listener of JobManager.create (none while running). -/
structure RJob where
  id : String
  name : String
  running : Bool
  timeout : Option Nat
deriving DecidableEq

/-- Outcome of the childProcess spawn call. Per the Node child process
documentation, failure to spawn (for example a missing command) does not
make spawn throw: the returned handle emits an error event later. A
synchronous throw can only come from invalid API usage. -/
inductive SpawnOutcome where
  | ok
  | syncThrow
  | asyncFail
deriving DecidableEq

/-- Effects the Job constructor has performed: id generation, log buffer
allocation and the spawn call (src/src/job.js lines 44, 49 and 53). -/
structure CtorEffects where
  idAllocated : Bool
  bufferAllocated : Bool
  spawnAttempted : Bool
deriving DecidableEq

/-- No effect has been performed. -/
def noEffects : CtorEffects := ⟨false, false, false⟩

/-- The Job constructor (src/src/job.js lines 27 to 101): validate the
name, then the arguments, then allocate the id and the log buffer and
spawn the process. The fresh id and the spawn outcome are inputs of the
embedding (randomness and the operating system). A synchronous spawn
throw escapes as a non JobError exception; an asynchronous spawn failure
is reported only through a later error event, so the constructor still
returns the job. -/
def jobConstructor (name : String) (args : List String) (freshId : String)
    (sp : SpawnOutcome) : Except CreateErr RJob × CtorEffects :=
  if !isValidName name then (Except.error (CreateErr.jobError JobErr.invalidName), noEffects)
  else if !isValidArguments args then
    (Except.error (CreateErr.jobError JobErr.invalidArgs), noEffects)
  else
    match sp with
    | SpawnOutcome.syncThrow => (Except.error CreateErr.native, ⟨true, true, true⟩)
    | _ => (Except.ok ⟨freshId, name, true, none⟩, ⟨true, true, true⟩)

/-- The JS Map of JobManager as an association list in insertion order.
Keys are unique in a real Map; mapSet keeps the first matching entry in
place and mapDelete removes it. -/
def mapGet : List (String × RJob) → String → Option RJob
  | [], _ => none
  | (k, v) :: rest, key => if k = key then some v else mapGet rest key

/-- Map.set: replace the entry in place when the key is present,
otherwise append. -/
def mapSet : List (String × RJob) → String → RJob → List (String × RJob)
  | [], key, v => [(key, v)]
  | (k, v0) :: rest, key, v =>
    if k = key then (key, v) :: rest else (k, v0) :: mapSet rest key v

/-- Map.delete: drop the entry with the given key. -/
def mapDelete : List (String × RJob) → String → List (String × RJob)
  | [], _ => []
  | (k, v) :: rest, key => if k = key then rest else (k, v) :: mapDelete rest key

/-- JobManager.getById (src/src/job.js lines 168 to 174): linear scan of
the map values in insertion order for the first job with the given id. -/
def getById : List (String × RJob) → String → Option RJob
  | [], _ => none
  | (_, j) :: rest, i => if j.id = i then some j else getById rest i

/-- State of the JobManager: the jobs map plus the set of pending cleanup
timers the runtime currently tracks (identified by numeric handles). -/
structure Registry where
  jobs : List (String × RJob)
  timers : List Nat
deriving DecidableEq

/-- An argument passed to clearTimeout: either a genuine timer handle or
some other object, such as a Job. -/
inductive JsVal where
  | jobv (j : RJob)
  | timerv (t : Nat)

/-- clearTimeout cancels a pending timer when given its handle; any other
argument (in particular a Job object) is silently ignored. -/
def clearTimeout (timers : List Nat) : JsVal → List Nat
  | JsVal.timerv t => timers.filter (fun x => x ≠ t)
  | JsVal.jobv _ => timers

/-- JobManager.isRunning (src/src/job.js lines 181 to 183): the name is in
the map and the stored job reports state RUNNING. -/
def Registry.isRunning (r : Registry) (name : String) : Bool :=
  match mapGet r.jobs name with
  | some j => j.running
  | none => false

/-- JobManager.replace (src/src/job.js lines 221 to 228): look the old job
up, and when it exists and carries a timeout call clearTimeout with the
old JOB itself (the source passes oldJob, not oldJob.timeout, so nothing
is cancelled), then set the new job under the name. -/
def Registry.replace (r : Registry) (name : String) (job : RJob) : Registry :=
  let timers :=
    match mapGet r.jobs name with
    | some oldJob =>
      if oldJob.timeout.isSome then clearTimeout r.timers (JsVal.jobv oldJob) else r.timers
    | none => r.timers
  ⟨mapSet r.jobs name job, timers⟩

/-- JobManager.remove (src/src/job.js lines 235 to 243): look up whatever
job is stored under the name of the argument, attempt the same
clearTimeout call on the stored JOB object, then delete the map entry for
that name unconditionally. -/
def Registry.remove (r : Registry) (job : RJob) : Registry :=
  let timers :=
    match mapGet r.jobs job.name with
    | some oldJob =>
      if oldJob.timeout.isSome then clearTimeout r.timers (JsVal.jobv oldJob) else r.timers
    | none => r.timers
  ⟨mapDelete r.jobs job.name, timers⟩

/-- Access of the length property on the jobs Map (src/src/job.js line
198). A JS Map has size, not length, so the access yields undefined. -/
def jobsLength (_m : List (String × RJob)) : Option Nat := none

/-- The JS comparison of line 198: undefined on the left of a greater or
equal comparison converts to NaN and the comparison is false. -/
def jsGe : Option Nat → Nat → Bool
  | some a, b => decide (b ≤ a)
  | none, _ => false

/-- The segments of a name, as Lean strings: the JS call that splits the
name at plus signs (src/src/job.js line 202). -/
def splitOnPlus (s : String) : List String :=
  (splitPlus s.data).map (fun l => String.mk l)

/-- JobManager.create (src/src/job.js lines 190 to 219): reject when the
name is running; the capacity test compares the undefined length property
of the Map against COMMAND_MAX_JOBS; build the argument list by
concatenating the extra arguments with the name segments; run the Job
constructor; on success publish the job through replace. The close
listener that schedules deferred cleanup is modelled separately. -/
def Registry.create (r : Registry) (name : String) (extraArgs : List String)
    (freshId : String) (sp : SpawnOutcome) : Except CreateErr (RJob × Registry) :=
  if r.isRunning name then Except.error (CreateErr.jobError JobErr.alreadyRunning)
  else if jsGe (jobsLength r.jobs) COMMAND_MAX_JOBS then
    Except.error (CreateErr.jobError JobErr.maxJobs)
  else
    match jobConstructor name (extraArgs ++ splitOnPlus name) freshId sp with
    | (Except.error e, _) => Except.error e
    | (Except.ok job, _) => Except.ok (job, r.replace name job)

/-! HTTP start handler (src/unnamed/part_000 lines 234 to 276). -/

/-- Response of the start route: status code and, when the handler sends
a name and id object, that payload. -/
structure HttpResponse where
  status : Nat
  body : Option (String × String)
deriving DecidableEq

/-- The post start handler: call create with no extra arguments; map
invalid name or arguments to 400; map already running to 409 with the
name and id of the stored job (falling through to 500 when the lookup
finds nothing); the third branch of the source repeats the already
running test instead of testing max jobs, so the 429 answer is dead code;
anything else answers 500. The registry after the call is returned
alongside the response. -/
def postStart (r : Registry) (name : String) (freshId : String)
    (sp : SpawnOutcome) : HttpResponse × Registry :=
  match r.create name [] freshId sp with
  | Except.ok (job, r2) => (⟨202, some (job.name, job.id)⟩, r2)
  | Except.error (CreateErr.jobError e) =>
    if e = JobErr.invalidName ∨ e = JobErr.invalidArgs then (⟨400, none⟩, r)
    else if e = JobErr.alreadyRunning then
      match mapGet r.jobs name with
      | some job => (⟨409, some (job.name, job.id)⟩, r)
      | none => (⟨500, none⟩, r)
    else if e = JobErr.alreadyRunning then (⟨429, none⟩, r)
    else (⟨500, none⟩, r)
  | Except.error CreateErr.native => (⟨500, none⟩, r)

/-! Map lemmas used for the registry claims. -/

theorem mapGet_mapSet_self (m : List (String × RJob)) (k : String) (v : RJob) :
    mapGet (mapSet m k v) k = some v := by
  induction m with
  | nil => simp [mapSet, mapGet]
  | cons q rest ih =>
    obtain ⟨k0, v0⟩ := q
    by_cases h : k0 = k
    · simp [mapSet, h, mapGet]
    · simp [mapSet, h, mapGet, ih]

theorem mem_mapSet (m : List (String × RJob)) (k : String) (v : RJob)
    (p : String × RJob) (hp : p ∈ mapSet m k v) : p = (k, v) ∨ p ∈ m := by
  induction m with
  | nil =>
    simp [mapSet] at hp
    exact Or.inl hp
  | cons q rest ih =>
    obtain ⟨k0, v0⟩ := q
    by_cases h : k0 = k
    · simp only [mapSet, h, if_true, List.mem_cons] at hp
      rcases hp with h1 | h1
      · exact Or.inl h1
      · exact Or.inr (List.mem_cons_of_mem _ h1)
    · simp only [mapSet, h, if_false, List.mem_cons] at hp
      rcases hp with h1 | h1
      · exact Or.inr (by simp [h1])
      · rcases ih h1 with h2 | h2
        · exact Or.inl h2
        · exact Or.inr (List.mem_cons_of_mem _ h2)

theorem mem_mapSet_key (m : List (String × RJob)) (k : String) (v : RJob)
    (hnd : (m.map Prod.fst).Nodup) (p : String × RJob)
    (hp : p ∈ mapSet m k v) (hk : p.1 = k) : p.2 = v := by
  induction m with
  | nil =>
    simp [mapSet] at hp
    simp [hp]
  | cons q rest ih =>
    obtain ⟨k0, v0⟩ := q
    simp only [List.map_cons, List.nodup_cons] at hnd
    by_cases h : k0 = k
    · subst h
      simp only [mapSet, if_true, List.mem_cons] at hp
      rcases hp with h1 | h1
      · simp [h1]
      · exfalso
        apply hnd.1
        have hmem : p.1 ∈ rest.map Prod.fst := List.mem_map_of_mem Prod.fst h1
        rw [hk] at hmem
        exact hmem
    · simp only [mapSet, h, if_false, List.mem_cons] at hp
      rcases hp with h1 | h1
      · exfalso
        apply h
        rw [h1] at hk
        exact hk
      · exact ih hnd.2 h1

theorem getById_eq_none (m : List (String × RJob)) (i : String)
    (h : ∀ p ∈ m, p.2.id ≠ i) : getById m i = none := by
  induction m with
  | nil => rfl
  | cons q rest ih =>
    obtain ⟨k0, v0⟩ := q
    have h0 : v0.id ≠ i := h (k0, v0) (by simp)
    simp only [getById, h0, if_false]
    exact ih (fun p hp => h p (List.mem_cons_of_mem _ hp))

/-! Claim C3: what replacement does to reachability. -/

/-- C3 counterexample: a registry holds an exited job under the name nn
with its cleanup timer 7 still pending; replacing the name with a new
job makes the old job unreachable by id at once, even though its grace
period cleanup has not fired (the timer is still tracked afterwards). -/
theorem c3_counterexample :
    getById ((Registry.replace ⟨[("nn", ⟨"id1", "nn", false, some 7⟩)], [7]⟩
        "nn" ⟨"id2", "nn", true, none⟩).jobs) "id1" = none
    ∧ (Registry.replace ⟨[("nn", ⟨"id1", "nn", false, some 7⟩)], [7]⟩
        "nn" ⟨"id2", "nn", true, none⟩).timers = [7] := by
  exact ⟨rfl, rfl⟩

/-- C3 (amended): replacing a name unconditionally overwrites the single
map entry for that name, so from the moment of replacement the primary
name lookup returns only the new job AND the old job is no longer
reachable through getById at all; nothing keeps it reachable until its
grace period cleanup. Hypotheses: map keys are unique (as in a JS Map),
the old job is the one stored under the name, its id appears only under
that name, and the new job has a different id. -/
theorem c3_amended (reg : Registry) (name : String) (jOld jNew : RJob)
    (hnd : (reg.jobs.map Prod.fst).Nodup)
    (_hget : mapGet reg.jobs name = some jOld)
    (hid : ∀ p ∈ reg.jobs, p.2.id = jOld.id → p.1 = name)
    (hnew : jNew.id ≠ jOld.id) :
    mapGet (reg.replace name jNew).jobs name = some jNew
    ∧ getById (reg.replace name jNew).jobs jOld.id = none := by
  have hjobs : (reg.replace name jNew).jobs = mapSet reg.jobs name jNew := rfl
  rw [hjobs]
  refine ⟨mapGet_mapSet_self .., ?_⟩
  apply getById_eq_none
  intro p hp hcontra
  rcases mem_mapSet _ _ _ p hp with h1 | h1
  · rw [h1] at hcontra
    exact hnew hcontra
  · have hk : p.1 = name := hid p h1 hcontra
    have hv : p.2 = jNew := mem_mapSet_key _ _ _ hnd p hp hk
    rw [hv] at hcontra
    exact hnew hcontra

/-- C3 witness: the amended statement applied to the concrete registry of
the counterexample. -/
theorem c3_witness :
    mapGet ((Registry.replace ⟨[("nn", ⟨"id1", "nn", false, some 7⟩)], [7]⟩
        "nn" ⟨"id2", "nn", true, none⟩).jobs) "nn" = some ⟨"id2", "nn", true, none⟩
    ∧ getById ((Registry.replace ⟨[("nn", ⟨"id1", "nn", false, some 7⟩)], [7]⟩
        "nn" ⟨"id2", "nn", true, none⟩).jobs) "id1" = none :=
  c3_amended ⟨[("nn", ⟨"id1", "nn", false, some 7⟩)], [7]⟩ "nn"
    ⟨"id1", "nn", false, some 7⟩ ⟨"id2", "nn", true, none⟩
    (by decide) (by decide) (by decide) (by decide)

/-! Claim C4: the capacity check. -/

/-- A registry tracking exactly COMMAND_MAX_JOBS jobs. -/
def fullRegistry : Registry :=
  ⟨(List.range COMMAND_MAX_JOBS).map
      (fun i => ("j" ++ toString i, ⟨"x" ++ toString i, "j" ++ toString i, false, none⟩)),
    []⟩

/-- C4: the capacity test reads the length property of the jobs Map, but
a JS Map has size, not length, so the comparison is against undefined and
is always false: create never fails with the max jobs error. At a full
registry (30 tracked jobs, the configured maximum) creating a fresh name
succeeds and registers a 31st job instead of failing. -/
theorem c4_capacity_dead :
    fullRegistry.jobs.length = COMMAND_MAX_JOBS
    ∧ jsGe (jobsLength fullRegistry.jobs) COMMAND_MAX_JOBS = false
    ∧ Registry.create fullRegistry "newjob" [] "idn" SpawnOutcome.ok
        = Except.ok (⟨"idn", "newjob", true, none⟩,
            ⟨fullRegistry.jobs ++ [("newjob", ⟨"idn", "newjob", true, none⟩)], []⟩) := by
  refine ⟨by decide, rfl, ?_⟩
  rfl

/-! Claim C6: spawn failure. -/

/-- C6 counterexample: a create call on an empty registry whose spawn
fails asynchronously (the normal Node failure mode, for example a missing
command) returns the job and registers it; no spawn-failed error kind
exists in the source, and the registry ends up holding the job. -/
theorem c6_counterexample :
    Registry.create ⟨[], []⟩ "abc" [] "idZ" SpawnOutcome.asyncFail
      = Except.ok (⟨"idZ", "abc", true, none⟩,
          ⟨[("abc", ⟨"idZ", "abc", true, none⟩)], []⟩) := rfl

/-- C6 (amended): only a synchronous spawn throw aborts creation. It
escapes create as a non JobError exception before publication, so no job
is registered and the start route answers 500 with the registry
unchanged; there is no spawn-failed JobError kind. An asynchronous spawn
failure does not prevent the job from being created and registered. -/
theorem c6_amended (r : Registry) (name : String) (extra : List String)
    (freshId freshId2 : String)
    (hrun : r.isRunning name = false)
    (hname : isValidName name = true)
    (hargs : isValidArguments (extra ++ splitOnPlus name) = true)
    (hargs0 : isValidArguments (splitOnPlus name) = true) :
    r.create name extra freshId SpawnOutcome.syncThrow = Except.error CreateErr.native
    ∧ postStart r name freshId SpawnOutcome.syncThrow = (⟨500, none⟩, r)
    ∧ r.create name extra freshId2 SpawnOutcome.asyncFail
        = Except.ok (⟨freshId2, name, true, none⟩,
            r.replace name ⟨freshId2, name, true, none⟩) := by
  have hcap : jsGe (jobsLength r.jobs) COMMAND_MAX_JOBS = false := rfl
  have hsync : r.create name extra freshId SpawnOutcome.syncThrow
      = Except.error CreateErr.native := by
    simp [Registry.create, hrun, hcap, jobConstructor, hname, hargs]
  refine ⟨hsync, ?_, ?_⟩
  · have hsync0 : r.create name [] freshId SpawnOutcome.syncThrow
        = Except.error CreateErr.native := by
      simp [Registry.create, hrun, hcap, jobConstructor, hname, hargs0]
    simp [postStart, hsync0]
  · simp [Registry.create, hrun, hcap, jobConstructor, hname, hargs]

/-- C6 witness: the amended statement at a concrete call on the empty
registry. -/
theorem c6_witness :
    Registry.create ⟨[], []⟩ "abc" [] "i1" SpawnOutcome.syncThrow
        = Except.error CreateErr.native
    ∧ postStart ⟨[], []⟩ "abc" "i1" SpawnOutcome.syncThrow = (⟨500, none⟩, ⟨[], []⟩)
    ∧ Registry.create ⟨[], []⟩ "abc" [] "i2" SpawnOutcome.asyncFail
        = Except.ok (⟨"i2", "abc", true, none⟩,
            Registry.replace ⟨[], []⟩ "abc" ⟨"i2", "abc", true, none⟩) :=
  c6_amended ⟨[], []⟩ "abc" [] "i1" "i2" (by decide) (by decide) (by decide) (by decide)

/-! Claim C7: duplicate start of a running name. -/

/-- C7: when the name maps to a job whose state is RUNNING, create fails
with the already running error before any mutation, and the start route
answers 409 carrying the name and id of the stored (first, still running)
job, leaving the registry unchanged. -/
theorem c7_already_running (r : Registry) (name : String) (extra : List String)
    (freshId : String) (sp : SpawnOutcome) (j : RJob)
    (hget : mapGet r.jobs name = some j) (hrun : j.running = true) :
    r.create name extra freshId sp = Except.error (CreateErr.jobError JobErr.alreadyRunning)
    ∧ postStart r name freshId sp = (⟨409, some (j.name, j.id)⟩, r) := by
  have hr : r.isRunning name = true := by
    simp [Registry.isRunning, hget, hrun]
  have hcr : ∀ ex : List String, r.create name ex freshId sp
      = Except.error (CreateErr.jobError JobErr.alreadyRunning) := by
    intro ex
    simp [Registry.create, hr]
  refine ⟨hcr extra, ?_⟩
  simp [postStart, hcr [], hget]

/-- C7 witness: a registry with one running job under the name bld. -/
theorem c7_witness :
    Registry.create ⟨[("bld", ⟨"idA", "bld", true, none⟩)], []⟩ "bld" [] "idB"
        SpawnOutcome.ok = Except.error (CreateErr.jobError JobErr.alreadyRunning)
    ∧ postStart ⟨[("bld", ⟨"idA", "bld", true, none⟩)], []⟩ "bld" "idB" SpawnOutcome.ok
        = (⟨409, some ("bld", "idA")⟩, ⟨[("bld", ⟨"idA", "bld", true, none⟩)], []⟩) :=
  c7_already_running ⟨[("bld", ⟨"idA", "bld", true, none⟩)], []⟩ "bld" [] "idB"
    SpawnOutcome.ok ⟨"idA", "bld", true, none⟩ (by decide) (by decide)

/-! Claim C9: remove. -/

/-- C9: evaluation of remove at the replace-before-cleanup race. With the
newer job stored under the name, removing the OLD job (whose cleanup
timer 7 is still pending) deletes the newer job from the map and cancels
no timer; and even when the stored job is the argument itself, its
pending timer survives, because clearTimeout receives the Job object
instead of the timer handle. -/
theorem c9_remove_eval :
    (Registry.remove ⟨[("nn", ⟨"id2", "nn", true, none⟩)], [7]⟩
        ⟨"id1", "nn", false, some 7⟩).jobs = []
    ∧ (Registry.remove ⟨[("nn", ⟨"id2", "nn", true, none⟩)], [7]⟩
        ⟨"id1", "nn", false, some 7⟩).timers = [7]
    ∧ (Registry.remove ⟨[("nn", ⟨"id1", "nn", false, some 7⟩)], [7]⟩
        ⟨"id1", "nn", false, some 7⟩).timers = [7] := by
  exact ⟨rfl, rfl, by decide⟩

/-! Claim C10: validation order and effects in the Job constructor. -/

/-- C10: the constructor validates the name first, so an invalid name
always fails with the invalid name error regardless of the arguments,
with no id allocated, no buffer allocated and no spawn attempted; and any
validation failure (invalid name or invalid arguments) likewise performs
none of those effects. -/
theorem c10_ctor_order (name : String) (args : List String) (freshId : String)
    (sp : SpawnOutcome) :
    (isValidName name = false →
      jobConstructor name args freshId sp
        = (Except.error (CreateErr.jobError JobErr.invalidName), noEffects))
    ∧ (∀ e : JobErr, (jobConstructor name args freshId sp).1
          = Except.error (CreateErr.jobError e)
        → (jobConstructor name args freshId sp).2 = noEffects) := by
  constructor
  · intro h
    simp [jobConstructor, h]
  · intro e he
    by_cases hn : isValidName name
    · by_cases ha : isValidArguments args
      · exfalso
        cases sp <;> simp [jobConstructor, hn, ha] at he
      · simp [jobConstructor, hn, ha]
    · simp [jobConstructor, hn]

/-- C10 witness: an invalid name with valid arguments fails with the
invalid name error and no effects. -/
theorem c10_witness :
    isValidName "+x" = false
    ∧ jobConstructor "+x" ["a-b"] "i1" SpawnOutcome.ok
        = (Except.error (CreateErr.jobError JobErr.invalidName), noEffects)
    ∧ (jobConstructor "+x" ["a-b"] "i1" SpawnOutcome.ok).2 = noEffects := by
  have h : isValidName "+x" = false := by decide
  have h1 := (c10_ctor_order "+x" ["a-b"] "i1" SpawnOutcome.ok).1 h
  refine ⟨h, h1, ?_⟩
  exact (c10_ctor_order "+x" ["a-b"] "i1" SpawnOutcome.ok).2 JobErr.invalidName
    (by rw [h1])

/-! The log buffer (src/src/job.js lines 49, 58 to 83). The buffer is
allocated once with the configured capacity and zero filled; each data
handler appends at the current length, the underlying write storing only
as many bytes as still fit and returning that count, which is added to
the length. One Nat per byte. -/

/-- The log buffer of one job: the fixed backing store and the length
cursor logBufferLen. -/
structure LogBuf where
  buf : List Nat
  len : Nat
deriving DecidableEq

/-- Buffer.alloc of the configured capacity: zero filled, length zero. -/
def bufferAlloc (cap : Nat) : LogBuf := ⟨List.replicate cap 0, 0⟩

/-- Buffer.write of a chunk at an offset: stores min of the chunk length
and the remaining room, returning the number of bytes written (the Node
guarantee that only the part that fits is written). -/
def bufWrite (b : List Nat) (off : Nat) (chunk : List Nat) : List Nat × Nat :=
  let n := min chunk.length (b.length - off)
  (b.take off ++ chunk.take n ++ b.drop (off + n), n)

/-- One data handler invocation (src/src/job.js line 65): write at the
current length and advance the length by the count actually written. -/
def onProcessData (lb : LogBuf) (chunk : List Nat) : LogBuf :=
  let r := bufWrite lb.buf lb.len chunk
  ⟨r.1, lb.len + r.2⟩

/-- A sequence of process output chunks fed through the data handler. -/
def writeAll (lb : LogBuf) (chunks : List (List Nat)) : LogBuf :=
  chunks.foldl onProcessData lb

/-- Canonical buffer state after the byte stream flat has been fed in: the
first cap bytes of flat, zero padding after them, and the length clamped
at cap. -/
def canonState (cap : Nat) (flat : List Nat) : LogBuf :=
  ⟨flat.take cap ++ List.replicate (cap - flat.length) 0, min flat.length cap⟩

theorem bufferAlloc_canon (cap : Nat) : bufferAlloc cap = canonState cap [] := by
  simp [bufferAlloc, canonState]

theorem onProcessData_canon (cap : Nat) (flat c : List Nat) :
    onProcessData (canonState cap flat) c = canonState cap (flat ++ c) := by
  have hlenA : (flat.take cap).length = min flat.length cap := by
    simp [List.length_take, Nat.min_comm]
  have hlenB : (flat.take cap ++ List.replicate (cap - flat.length) 0).length = cap := by
    simp [hlenA]
    omega
  rcases le_or_lt flat.length cap with hf | hf
  · have hd : min flat.length cap = flat.length := by omega
    have htakeA : (flat.take cap ++ List.replicate (cap - flat.length) 0).take
        (min flat.length cap) = flat.take cap := by
      rw [← hlenA]
      exact List.take_left ..
    have hdrop : ∀ n : Nat,
        (flat.take cap ++ List.replicate (cap - flat.length) 0).drop
          (min flat.length cap + n) = List.replicate (cap - flat.length - n) 0 := by
      intro n
      rw [← hlenA, List.drop_append, List.drop_replicate]
    simp only [onProcessData, bufWrite, canonState, hlenB, htakeA, hdrop]
    have hn : c.take (min c.length (cap - min flat.length cap)) = c.take (cap - flat.length) := by
      apply List.take_eq_take.mpr
      omega
    rw [hn]
    have hflat : (flat ++ c).take cap = flat.take cap ++ c.take (cap - flat.length) := by
      rw [List.take_append_eq_append_take]
    rw [hflat]
    have h1 : cap - flat.length - min c.length (cap - min flat.length cap)
        = cap - (flat ++ c).length := by
      simp only [List.length_append]
      omega
    have h2 : min flat.length cap + min c.length (cap - min flat.length cap)
        = min (flat ++ c).length cap := by
      simp only [List.length_append]
      omega
    rw [h1, h2, List.append_assoc]
  · have hd : min flat.length cap = cap := by omega
    have hrep : cap - flat.length = 0 := by omega
    have htakeA : (flat.take cap ++ List.replicate (cap - flat.length) 0).take
        (min flat.length cap) = flat.take cap := by
      rw [← hlenA]
      exact List.take_left ..
    simp only [onProcessData, bufWrite, canonState, hlenB, htakeA]
    have hn : min c.length (cap - min flat.length cap) = 0 := by omega
    have hflat : (flat ++ c).take cap = flat.take cap := by
      rw [List.take_append_eq_append_take]
      have : cap - flat.length = 0 := hrep
      simp [this]
    simp only [hn, List.take_zero]
    have h2 : min flat.length cap + 0 = min (flat ++ c).length cap := by
      simp only [List.length_append]
      omega
    have h1 : (flat.take cap ++ List.replicate (cap - flat.length) 0).drop
        (min flat.length cap + 0) = List.replicate (cap - (flat ++ c).length) 0 := by
      rw [← hlenA, List.drop_append, List.drop_replicate]
      simp only [List.length_append]
      congr 1
      omega
    rw [hflat, h1, h2]
    simp

theorem writeAll_canon (cap : Nat) (chunks : List (List Nat)) (flat : List Nat) :
    writeAll (canonState cap flat) chunks = canonState cap (flat ++ chunks.flatten) := by
  induction chunks generalizing flat with
  | nil => simp [writeAll]
  | cons c rest ih =>
    have hstep : writeAll (canonState cap flat) (c :: rest)
        = writeAll (onProcessData (canonState cap flat) c) rest := rfl
    rw [hstep, onProcessData_canon, ih]
    simp [List.append_assoc]

/-! Events of one job process: data chunks followed, after the output
streams drain, by a single close. Node guarantees that close is emitted
after the stdio streams are done, so a well formed event list has no data
event after a close. -/

/-- An event observed by the Job: a chunk of process output, or close. -/
inductive JEvent where
  | dataEv (chunk : List Nat)
  | closeEv
deriving DecidableEq

/-- Test for the close event. -/
def isCloseEv : JEvent → Bool
  | JEvent.closeEv => true
  | JEvent.dataEv _ => false

/-- The Job listeners: data appends to the buffer, close freezes the state
to EXITED. -/
def stepEvent : LogBuf × Bool → JEvent → LogBuf × Bool
  | (lb, ex), JEvent.dataEv c => (onProcessData lb c, ex)
  | (lb, _), JEvent.closeEv => (lb, true)

/-- Run a fresh job with the given capacity over an event list; the Bool
is the exited flag. -/
def runEvents (cap : Nat) (evs : List JEvent) : LogBuf × Bool :=
  evs.foldl stepEvent (bufferAlloc cap, false)

/-- Node ordering guarantee on the event list: once close appears, only
close may follow (no output byte can arrive after close). -/
def wfEvents : List JEvent → Bool
  | [] => true
  | JEvent.closeEv :: rest => rest.all isCloseEv
  | JEvent.dataEv _ :: rest => wfEvents rest

theorem wfEvents_all_close (pre post : List JEvent)
    (h : wfEvents (pre ++ JEvent.closeEv :: post) = true) : post.all isCloseEv = true := by
  induction pre with
  | nil =>
    simp only [List.nil_append, wfEvents] at h
    exact h
  | cons e rest ih =>
    cases e with
    | dataEv c => exact ih h
    | closeEv =>
      have h2 : (rest ++ JEvent.closeEv :: post).all isCloseEv = true := by
        simpa [wfEvents] using h
      simp only [List.all_append, List.all_cons, Bool.and_eq_true] at h2
      exact h2.2.2

theorem foldl_all_close (post : List JEvent) (lb : LogBuf) (b : Bool)
    (h : post.all isCloseEv = true) : (post.foldl stepEvent (lb, b)).1 = lb := by
  induction post generalizing b with
  | nil => rfl
  | cons e rest ih =>
    cases e with
    | dataEv c => simp [isCloseEv] at h
    | closeEv =>
      simp only [List.all_cons, Bool.and_eq_true] at h
      exact ih true h.2

/-- C8: over any sequence of output chunks fed to a fresh buffer of the
given capacity, the length never exceeds the capacity; the length is
monotonically non decreasing under further writes from any state; once
more total bytes than the capacity have been written, exactly the first
cap bytes of the concatenated stream are retained (length exactly cap,
excess silently dropped, no error arises since the write model is total);
and for any well formed event list, everything after the close event
leaves the buffer (hence the length) frozen. -/
theorem c8_buffer_invariants (cap : Nat) (chunks : List (List Nat)) :
    (writeAll (bufferAlloc cap) chunks).len ≤ cap
    ∧ (∀ lb : LogBuf, ∀ more : List (List Nat), lb.len ≤ (writeAll lb more).len)
    ∧ (cap < (chunks.flatten).length →
        (writeAll (bufferAlloc cap) chunks).len = cap
        ∧ (writeAll (bufferAlloc cap) chunks).buf = (chunks.flatten).take cap)
    ∧ (∀ pre post : List JEvent, wfEvents (pre ++ JEvent.closeEv :: post) = true →
        (runEvents cap (pre ++ JEvent.closeEv :: post)).1 = (runEvents cap pre).1) := by
  have hrun : writeAll (bufferAlloc cap) chunks = canonState cap chunks.flatten := by
    rw [bufferAlloc_canon, writeAll_canon, List.nil_append]
  refine ⟨?_, ?_, ?_, ?_⟩
  · rw [hrun]
    simp only [canonState]
    omega
  · intro lb more
    induction more generalizing lb with
    | nil => exact Nat.le_refl _
    | cons c rest ih =>
      have hstep : writeAll lb (c :: rest) = writeAll (onProcessData lb c) rest := rfl
      rw [hstep]
      exact Nat.le_trans (Nat.le_add_right lb.len _) (ih (onProcessData lb c))
  · intro hover
    rw [hrun]
    simp only [canonState]
    constructor
    · omega
    · have hz : cap - (chunks.flatten).length = 0 := by omega
      rw [hz, List.replicate_zero, List.append_nil]
  · intro pre post hwf
    have hpost := wfEvents_all_close pre post hwf
    have hsplit : runEvents cap (pre ++ JEvent.closeEv :: post)
        = (JEvent.closeEv :: post).foldl stepEvent (runEvents cap pre) := by
      simp [runEvents, List.foldl_append]
    rw [hsplit]
    have hclose : (JEvent.closeEv :: post).foldl stepEvent (runEvents cap pre)
        = post.foldl stepEvent ((runEvents cap pre).1, true) := by
      simp only [List.foldl_cons]
      congr 1
    rw [hclose]
    exact foldl_all_close post (runEvents cap pre).1 true hpost

/-- C8 witness: a four byte buffer fed six bytes in two chunks retains
exactly the first four bytes, and an event list whose close is followed
by further close events leaves the buffer unchanged. -/
theorem c8_witness :
    (4 < ([[1, 2, 3], [4, 5, 6]].flatten).length
      ∧ (writeAll (bufferAlloc 4) [[1, 2, 3], [4, 5, 6]]).len = 4
      ∧ (writeAll (bufferAlloc 4) [[1, 2, 3], [4, 5, 6]]).buf
          = ([[1, 2, 3], [4, 5, 6]].flatten).take 4)
    ∧ (wfEvents ([JEvent.dataEv [1, 2]] ++ JEvent.closeEv :: [JEvent.closeEv]) = true
      ∧ (runEvents 4 ([JEvent.dataEv [1, 2]] ++ JEvent.closeEv :: [JEvent.closeEv])).1
          = (runEvents 4 [JEvent.dataEv [1, 2]]).1) := by
  constructor
  · have h : 4 < ([[1, 2, 3], [4, 5, 6]].flatten).length := by decide
    have h2 := (c8_buffer_invariants 4 [[1, 2, 3], [4, 5, 6]]).2.2.1 h
    exact ⟨h, h2.1, h2.2⟩
  · have h : wfEvents ([JEvent.dataEv [1, 2]] ++ JEvent.closeEv :: [JEvent.closeEv])
        = true := by decide
    exact ⟨h, (c8_buffer_invariants 4 [[1, 2, 3], [4, 5, 6]]).2.2.2
      [JEvent.dataEv [1, 2]] [JEvent.closeEv] h⟩

/-! The log distributor streamJobLogs (src/unnamed/part_000 lines 278 to
324). The function receives the job and a writable called stream. Two
facts of the source matter here. First, the initial send is the call of
stream.write with three arguments: the whole logBuffer, 0 and pos. The
write method of a Node writable takes chunk, encoding and callback; it
has no offset or length parameters, so the 0 is taken as a falsy encoding
and pos as a non function callback, and the ENTIRE fixed capacity buffer
is written, zero padding included. Second, the close listener and the
not-running branch refer to a variable named res, which is not bound
anywhere in streamJobLogs (the parameter is named stream), so reaching
those lines raises a ReferenceError in strict mode. -/

/-- State of the job as the distributor sees it: the backing buffer (full
capacity, zero padded), the length cursor and the running flag. -/
structure DJob where
  logBuffer : List Nat
  logBufferLen : Nat
  running : Bool
deriving DecidableEq

/-- The writable the subscriber reads: bytes written so far, and whether
end was called (successful termination). -/
structure Sink where
  written : List Nat
  ended : Bool
deriving DecidableEq

/-- The runtime error raised by referring to the unbound name res. -/
inductive JsError where
  | refErrorRes
deriving DecidableEq

/-- Writable.write: append the whole chunk (no offset or length
parameters exist on this method). -/
def streamWrite (s : Sink) (chunk : List Nat) : Sink := ⟨s.written ++ chunk, s.ended⟩

/-- Subscriber state during streaming: local cursor pos and the sink. -/
structure SubState where
  pos : Nat
  sink : Sink
deriving DecidableEq

/-- Outcome of one distributor step: the sink, the cursor and the runtime
error if one was raised. -/
structure HandlerResult where
  sink : Sink
  pos : Nat
  err : Option JsError
deriving DecidableEq

/-- Entry of streamJobLogs (lines 280 to 292 and the not-running branch of
lines 320 to 323): set pos to the current logBufferLen, write the whole
logBuffer to the stream, then, when the job is not running, evaluate
res.end() where res is unbound, raising a ReferenceError instead of
ending the stream. When the job is running the listeners below are
installed and no error occurs here. -/
def streamJobLogsInit (j : DJob) (sink0 : Sink) : HandlerResult :=
  let pos := j.logBufferLen
  let sink1 := streamWrite sink0 j.logBuffer
  if j.running then ⟨sink1, pos, none⟩
  else ⟨sink1, pos, some JsError.refErrorRes⟩

/-- The data listener (lines 293 to 306): nothing to send when the cursor
has caught up, otherwise write the slice from pos to logBufferLen and
advance the cursor. -/
def onDataHandler (j : DJob) (sub : SubState) : SubState :=
  if j.logBufferLen ≤ sub.pos then sub
  else ⟨j.logBufferLen, streamWrite sub.sink ((j.logBuffer.take j.logBufferLen).drop sub.pos)⟩

/-- The close listener (lines 308 to 319): when unsent bytes remain the
source calls res.write on the remaining slice, but res is unbound, so a
ReferenceError is raised before anything is written and before
stream.end() is reached; only when the cursor has already caught up does
stream.end() run and terminate the stream successfully. -/
def onCloseHandler (j : DJob) (sub : SubState) : HandlerResult :=
  if sub.pos < j.logBufferLen then ⟨sub.sink, sub.pos, some JsError.refErrorRes⟩
  else ⟨⟨sub.sink.written, true⟩, sub.pos, none⟩

/-- C1: evaluation of the close listener at the race the claim describes.
The job has two buffered bytes (104 and 105, in a four byte buffer) that
a subscriber attached while RUNNING has not flushed (cursor 0) when close
is delivered. Instead of flushing the two bytes and ending the stream,
the listener raises the ReferenceError for res, writes nothing (the sink
keeps its empty output and is never ended), and leaves the cursor at 0 -
the final chunk is lost and the stream does not terminate successfully. -/
theorem c1_close_eval :
    onCloseHandler
        ⟨[104, 105] ++ List.replicate (COMMAND_MAX_BUFFER - 2) 0, 2, true⟩
        ⟨0, ⟨[], false⟩⟩
      = ⟨⟨[], false⟩, 0, some JsError.refErrorRes⟩
    ∧ ((([104, 105] ++ List.replicate (COMMAND_MAX_BUFFER - 2) 0).take 2).drop 0
        = [104, 105]) :=
  ⟨rfl, rfl⟩

/-- C2: evaluation of the subscription entry on a job that already EXITED
with two captured bytes in a four byte buffer. The initial emission is
the whole fixed capacity buffer (the two data bytes plus two padding
zeros), not logBuffer[0:length]; the cursor is set to the length (2); and
instead of terminating the stream successfully the handler raises the
ReferenceError for res, leaving the sink unended. A second subscription
behaves identically, so both emissions agree with each other but not
with the captured output. -/
theorem c2_subscribe_eval :
    streamJobLogsInit
        ⟨[104, 105] ++ List.replicate (COMMAND_MAX_BUFFER - 2) 0, 2, false⟩
        ⟨[], false⟩
      = ⟨⟨[104, 105] ++ List.replicate (COMMAND_MAX_BUFFER - 2) 0, false⟩, 2,
          some JsError.refErrorRes⟩
    ∧ ([104, 105] ++ List.replicate (COMMAND_MAX_BUFFER - 2) 0).take 2 = [104, 105]
    ∧ ([104, 105] ++ List.replicate (COMMAND_MAX_BUFFER - 2) 0).length
        = COMMAND_MAX_BUFFER := by
  refine ⟨rfl, rfl, ?_⟩
  rw [List.length_append, List.length_replicate]
  decide

end Builder
